import Mathlib

/-!
Verification of the yaglm/ya_glm optimization core
(`yaglm/opt/base.py`, `ya_glm/opt/huber_regression.py`,
`yaglm/opt/glm_loss/logistic_regression.py`) against its
natural-language specification.

Numeric arrays are modelled as a flat list of rationals together with a
shape (a list of dimension sizes), mirroring numpy's `ndarray`.  Machine
floats are modelled by `ℚ`; the transcendental functions `exp`/`log1p`
used by `logsig` are taken as parameters so that every definition stays
executable.  Python exceptions are modelled by `Except PyErr`.
-/

set_option autoImplicit false

namespace Yaglm

/-- A numpy-style n-dimensional array: a shape together with the
row-major flat data.  `shape = [n]` is a 1-D vector, `[n, m]` a matrix,
longer shapes higher-rank arrays. -/
structure NDArray where
  shape : List ℕ
  data : List ℚ
deriving DecidableEq, Repr

/-- Model of `x.reshape(-1)`: the flat data of an array. -/
def NDArray.flatten (a : NDArray) : List ℚ := a.data

/-- Model of `d.reshape(s)`: reinterpret flat data `d` under shape `s`. -/
def reshape (d : List ℚ) (s : List ℕ) : NDArray := ⟨s, d⟩

/-- Elementwise subtraction `a - b` of same-shaped arrays. -/
def NDArray.sub (a b : NDArray) : NDArray :=
  ⟨a.shape, List.zipWith (· - ·) a.data b.data⟩

/-- Scalar multiplication `c * a` of an array. -/
def NDArray.scale (c : ℚ) (a : NDArray) : NDArray :=
  ⟨a.shape, a.data.map (fun d => c * d)⟩

/-- Model of `np.zeros_like(a)`: an all-zero array with the shape of `a`. -/
def NDArray.zerosLike (a : NDArray) : NDArray :=
  ⟨a.shape, a.data.map (fun _ => 0)⟩

/-- The Python exceptions the modelled code can raise. -/
inductive PyErr where
  | notImplementedError
  | attributeError
  | assertionError
deriving DecidableEq, Repr

/-- The capability tags of the commented-out `Func.capabilities`
method (`base.py` lines 77-99): EVAL, GRAD, PROX, GRAD_LIP. -/
inductive Cap where
  | EVAL
  | GRAD
  | PROX
  | GRAD_LIP
deriving DecidableEq, Repr

/-- A Python numeric value: either a scalar or an array.  Python's
`sum` over an empty generator returns the *int* `0`, not an array,
which this type makes observable. -/
inductive PyVal where
  | scalar : ℚ → PyVal
  | arr : NDArray → PyVal
deriving DecidableEq, Repr

/-- numpy addition of Python numeric values: scalar + scalar,
broadcast of a scalar over an array, and elementwise addition of
same-shaped arrays (the only cases the modelled code produces). -/
def pyAdd : PyVal → PyVal → PyVal
  | PyVal.scalar a, PyVal.scalar b => PyVal.scalar (a + b)
  | PyVal.scalar a, PyVal.arr v => PyVal.arr ⟨v.shape, v.data.map (fun d => a + d)⟩
  | PyVal.arr v, PyVal.scalar a => PyVal.arr ⟨v.shape, v.data.map (fun d => d + a)⟩
  | PyVal.arr v, PyVal.arr w => PyVal.arr ⟨v.shape, List.zipWith (· + ·) v.data w.data⟩

/-- numpy scalar multiplication of a Python numeric value. -/
def pyScale (c : ℚ) : PyVal → PyVal
  | PyVal.scalar a => PyVal.scalar (c * a)
  | PyVal.arr v => PyVal.arr (v.scale c)

/-- Model of the Python `sum(...)` over a list of numeric values: left fold of
`pyAdd` starting from the int `0`. -/
def pySum (l : List PyVal) : PyVal := l.foldl pyAdd (PyVal.scalar 0)

/-- The `Func` contract of `yaglm/opt/base.py`.  `eval` returns a
scalar, `grad` a Python numeric value (normally an array, but `Sum` of
no functions yields the scalar `0`), `prox` may raise
`NotImplementedError` (modelled by `Except`).  `grad_lip` models the
`grad_lip` property: `some` when the instance carries `_grad_lip`,
`none` otherwise.  `capabilities` models attribute lookup of
`Func.capabilities`: the method is commented out in the source, so
every function built from the source carries `none` and a lookup
raises `AttributeError`. -/
structure Func where
  eval : NDArray → ℚ
  grad : NDArray → PyVal
  prox : NDArray → ℚ → Except PyErr NDArray
  grad_lip : Option ℚ
  is_smooth : Bool
  is_proximable : Bool
  capabilities : Option (List Cap)

/-- Model of `Func.conj_prox` (`base.py` lines 24-38): the proximal operator of
the conjugate, computed generically from `prox` via Moreau's identity
`x - step * prox(x / step, 1 / step)`.  It is defined once here, on
`Func` itself; no subtype overrides it. -/
def Func.conj_prox (f : Func) (x : NDArray) (step : ℚ) : Except PyErr NDArray :=
  (f.prox (x.scale (1 / step)) (1 / step)).map (fun p => x.sub (p.scale step))

/-- The `Zero` function (`base.py` lines 121-141): `_eval = 0`,
`_grad = np.zeros_like(x)`, `_prox = x`, `grad_lip = 0`, smooth and
proximable. -/
def ZeroF : Func where
  eval := fun _ => 0
  grad := fun x => PyVal.arr x.zerosLike
  prox := fun x _ => Except.ok x
  grad_lip := some 0
  is_smooth := true
  is_proximable := true
  capabilities := none

/-- The accumulator loop of the `Sum.grad_lip` property
(`base.py` lines 157-168): starting from `lip = 0`, add each
component's `grad_lip`, returning `None` as soon as any component
reports `None`. -/
def sumGradLipLoop (acc : ℚ) : List Func → Option ℚ
  | [] => some acc
  | f :: fs =>
    match f.grad_lip with
    | none => none
    | some l => sumGradLipLoop (acc + l) fs

/-- The `Sum` combinator (`base.py` lines 144-177): `eval`/`grad` sum
the components' values (Python `sum`, so the empty sum is the int `0`),
`grad_lip` runs the accumulator loop, `is_smooth` is the conjunction
over components, `is_proximable` is `False`, and `_prox` is not
implemented. -/
def mkSum (funcs : List Func) : Func where
  eval := fun x => (funcs.map (fun f => f.eval x)).sum
  grad := fun x => pySum (funcs.map (fun f => f.grad x))
  prox := fun _ _ => Except.error PyErr.notImplementedError
  grad_lip := sumGradLipLoop 0 funcs
  is_smooth := funcs.all (fun f => f.is_smooth)
  is_proximable := false
  capabilities := none

/-- The `EntrywiseFunc` wrapper (`base.py` lines 102-118): a function
applied entrywise to the input whatever its rank.  Its `_eval` receives
the flattened input; its `_grad`/`_prox` are a scalar rule (`grad1`,
`prox1`) vectorized over the flattened input. -/
structure EntrywiseFunc where
  evalFlat : List ℚ → ℚ
  grad1 : ℚ → ℚ
  prox1 : ℚ → ℚ → ℚ

/-- Model of `EntrywiseFunc.eval`: flatten, then apply `_eval`. -/
def EntrywiseFunc.eval (f : EntrywiseFunc) (x : NDArray) : ℚ :=
  f.evalFlat x.flatten

/-- Model of `EntrywiseFunc.grad`: flatten, apply the scalar gradient rule
entrywise, reshape to the input's shape. -/
def EntrywiseFunc.grad (f : EntrywiseFunc) (x : NDArray) : NDArray :=
  reshape (x.flatten.map f.grad1) x.shape

/-- Model of `EntrywiseFunc.prox`: flatten, apply the scalar prox rule
entrywise, reshape to the input's shape. -/
def EntrywiseFunc.prox (f : EntrywiseFunc) (x : NDArray) (step : ℚ) : NDArray :=
  reshape (x.flatten.map (fun t => f.prox1 t step)) x.shape

/-- A `Func` whose `grad_lip` property reports `None` (the base-class
behaviour when no `_grad_lip` attribute was set, `base.py` lines 49-54). -/
def noLipF : Func where
  eval := fun _ => 0
  grad := fun x => PyVal.arr x.zerosLike
  prox := fun x _ => Except.ok x
  grad_lip := none
  is_smooth := false
  is_proximable := false
  capabilities := none

/-- Model of `((z - x) ** 2).sum()`. -/
def sumSq (l : List ℚ) : ℚ := (l.map (fun d => d * d)).sum

/-- Model of `np.mean(abs(d))`. -/
def meanAbs (l : List ℚ) : ℚ := (l.map (fun d => |d|)).sum / (l.length : ℚ)

/-- Model of `abs(d).max()` (0 on the empty array, which the checks never hit). -/
def maxAbs (l : List ℚ) : ℚ := (l.map (fun d => |d|)).foldr max 0

/-- Model of `np.allclose(a, b, rtol, atol)`: elementwise
`|a - b| <= atol + rtol * |b|`. -/
def allclose (a b : List ℚ) (rtol atol : ℚ) : Bool :=
  (List.zipWith (fun u v => decide (|u - v| ≤ atol + rtol * |v|)) a b).all (fun t => t)

/-- The interface of `scipy.optimize.minimize` as the modelled code
uses it: an objective, an optional jacobian (`jac`), and a start point
(`x0`); it returns the minimizing point (`opt_out.x`).  The general
purpose optimizer itself is external, so it is a parameter. -/
abbrev Minimizer : Type :=
  (NDArray → ℚ) → Option (NDArray → PyVal) → NDArray → NDArray

/-- Model of `numeric_prox` (`base.py` lines 230-277): numerically minimize
`step * func.eval(z) + 0.5 * ((z - x) ** 2).sum()` starting from
`init` (default `x`).  When `force_no_grad` is `False` the code asks
`'GRAD' in func.capabilities(x)` to decide whether to pass a jacobian
`step * func.grad(z) + (z - x)`; since `Func.capabilities` is
commented out in the source, that attribute lookup raises
`AttributeError` for every function the source defines. -/
def numeric_prox (minimize : Minimizer) (func : Func) (x : NDArray)
    (step : ℚ) (init : Option NDArray) (force_no_grad : Bool) :
    Except PyErr NDArray :=
  let start := init.getD x
  let prox_eval : NDArray → ℚ :=
    fun z => step * func.eval z + (1 / 2) * sumSq (z.sub x).data
  if force_no_grad then
    Except.ok (minimize prox_eval none start)
  else
    match func.capabilities with
    | none => Except.error PyErr.attributeError
    | some caps =>
      let prox_grad : Option (NDArray → PyVal) :=
        if caps.contains Cap.GRAD then
          some (fun z => pyAdd (pyScale step (func.grad z)) (PyVal.arr (z.sub x)))
        else
          none
      Except.ok (minimize prox_eval prox_grad start)

/-- The three behaviour modes of the check routines.  The source takes
them as strings and asserts membership in `['ret', 'error', 'warn']`;
the inductive type makes invalid modes unrepresentable. -/
inductive Behavior where
  | ret
  | error
  | warn
deriving DecidableEq, Repr

/-- The per-value loop of `check_prox_impl` (`base.py` lines 310-339):
for each trial point, compute the analytic prox, recompute it with
`numeric_prox` seeded at the analytic value (`init=prox_out`, default
`force_no_grad=False`), record the mean-absolute / max / l2
discrepancies and an `allclose` pass flag, asserting the flag in
`error` mode.  (`prox_baseline.item()` extraction for length-1 arrays
is the identity at the flat-data level.) -/
def checkProxLoop (minimize : Minimizer) (sqrt : ℚ → ℚ) (func : Func)
    (step rtol atol : ℚ) (behavior : Behavior) :
    List NDArray → Except PyErr (List (ℚ × ℚ × ℚ) × List Bool)
  | [] => Except.ok ([], [])
  | x :: rest =>
    match func.prox x step with
    | Except.error e => Except.error e
    | Except.ok prox_out =>
      match numeric_prox minimize func x step (some prox_out) false with
      | Except.error e => Except.error e
      | Except.ok prox_baseline =>
        let diff := List.zipWith (· - ·) prox_out.data prox_baseline.data
        let did_pass := allclose prox_out.data prox_baseline.data rtol atol
        let errs := (meanAbs diff, maxAbs diff, sqrt (sumSq diff))
        if behavior = Behavior.error ∧ did_pass = false then
          Except.error PyErr.assertionError
        else
          match checkProxLoop minimize sqrt func step rtol atol behavior rest with
          | Except.error e => Except.error e
          | Except.ok (es, ps) => Except.ok (errs :: es, did_pass :: ps)

/-- Model of `check_prox_impl` (`base.py` lines 280-350): run the per-value
loop, then in `ret` mode hand back the error records and pass flags
(`warn`/`error` modes return `None`, emitting a warning or having
asserted inside the loop).  `np.linalg.norm` needs a square root, so
`sqrt` is a parameter. -/
def check_prox_impl (minimize : Minimizer) (sqrt : ℚ → ℚ) (func : Func)
    (values : List NDArray) (step rtol atol : ℚ) (behavior : Behavior) :
    Except PyErr (Option (List (ℚ × ℚ × ℚ) × List Bool)) :=
  match checkProxLoop minimize sqrt func step rtol atol behavior values with
  | Except.error e => Except.error e
  | Except.ok (es, ps) =>
    if behavior = Behavior.ret then Except.ok (some (es, ps)) else Except.ok none

/-- Model of `np.sign`: `1` for positive, `-1` for negative, `0` at zero. -/
def npSign (x : ℚ) : ℚ := if 0 < x then 1 else if x < 0 then -1 else 0

/-- Model of `huber_eval_1d` (`huber_regression.py` lines 9-14): `0.5 * x ** 2`
when `|x| <= knot`, else `knot * (|x| - 0.5 * knot)`. -/
def huber_eval_1d (x : ℚ) (knot : ℚ) : ℚ :=
  if |x| ≤ knot then (1 / 2) * x ^ 2 else knot * (|x| - (1 / 2) * knot)

/-- Model of `_vec_huber_eval`: the eval kernel vectorized entrywise. -/
def vec_huber_eval (v : List ℚ) (knot : ℚ) : List ℚ :=
  v.map (fun z => huber_eval_1d z knot)

/-- Model of `huber_eval` (`huber_regression.py` lines 20-21): vectorized kernel
then `.sum()`. -/
def huber_eval (v : List ℚ) (knot : ℚ) : ℚ := (vec_huber_eval v knot).sum

/-- Model of `huber_grad_1d` (`huber_regression.py` lines 24-29): `x` when
`|x| <= knot`, else `knot * np.sign(x)`. -/
def huber_grad_1d (x : ℚ) (knot : ℚ) : ℚ :=
  if |x| ≤ knot then x else knot * npSign x

/-- Model of `huber_grad` (`huber_regression.py` lines 32-36): the gradient
kernel vectorized entrywise. -/
def huber_grad (v : List ℚ) (knot : ℚ) : List ℚ :=
  v.map (fun z => huber_grad_1d z knot)

/-- Vector dot product (truncating like `zip`). -/
def dotList (a b : List ℚ) : ℚ := (List.zipWith (· * ·) a b).sum

/-- Modelled from the spec: `safe_data_mat_coef_dot` lives in
`ya_glm.opt.utils`, which is not under `src/`.  Per spec section 4.4 and
section 3, the linear prediction is `X @ beta + b` where the coefficient
vector is ordered `[intercept, coef...]` when `fit_intercept` is set,
and plain `X @ coef` otherwise. -/
def safe_data_mat_coef_dot (X : List (List ℚ)) (coef : List ℚ)
    (fit_intercept : Bool) : List ℚ :=
  if fit_intercept then
    X.map (fun row => dotList row coef.tail + coef.headD 0)
  else
    X.map (fun row => dotList row coef)

/-- Model of `X.T @ g`: entry `j` is the dot product of column `j` of `X` with
`g`; the number of columns is read off the first row. -/
def matT_vec (X : List (List ℚ)) (g : List ℚ) : List ℚ :=
  (List.range (X.headD []).length).map
    (fun j => (List.zipWith (fun row gi => row.getD j 0 * gi) X g).sum)

/-- The state of a constructed `HuberRegLoss`
(`huber_regression.py` lines 39-80): the stored data, knot,
intercept flag, and the `_grad_lip` attribute set by `__init__`. -/
structure HuberRegLoss where
  X : List (List ℚ)
  y : List ℚ
  knot : ℚ
  fit_intercept : Bool
  grad_lip : ℚ

/-- Model of `HuberRegLoss.__init__` (`huber_regression.py` lines 66-80): store
`X`, `y`, `knot`, `fit_intercept`; set `_grad_lip` from the `lip`
argument, or else from `get_lin_reg_lip` — a collaborator in
`ya_glm.opt.linear_regression`, not under `src/`, which the spec treats
as a black box returning a nonnegative scalar from `X` alone, so it is
a parameter `lipFn` here.  The constructor performs no validation; the
`Except` return type only makes raising statable. -/
def huberRegLossInit (lipFn : List (List ℚ) → Bool → ℚ) (X : List (List ℚ))
    (y : List ℚ) (knot : ℚ) (fit_intercept : Bool) (lip : Option ℚ) :
    Except PyErr HuberRegLoss :=
  Except.ok
    { X := X
      y := y
      knot := knot
      fit_intercept := fit_intercept
      grad_lip :=
        match lip with
        | none => lipFn X fit_intercept
        | some l => l }

/-- Model of `HuberRegLoss._eval` (`huber_regression.py` lines 82-86):
`(1 / n_samples) * huber_eval(pred - y, knot)`. -/
def HuberRegLoss.eval (L : HuberRegLoss) (x : List ℚ) : ℚ :=
  let pred := safe_data_mat_coef_dot L.X x L.fit_intercept
  (1 / (L.X.length : ℚ)) * huber_eval (List.zipWith (· - ·) pred L.y) L.knot

/-- Model of `HuberRegLoss._grad` (`huber_regression.py` lines 88-101): per-sample
gradient `g = huber_grad(pred - y, knot)`, coefficient gradient
`(1 / n) * X.T @ g`, and with an intercept `np.mean(g)` is prepended. -/
def HuberRegLoss.grad (L : HuberRegLoss) (x : List ℚ) : List ℚ :=
  let pred := safe_data_mat_coef_dot L.X x L.fit_intercept
  let resid := List.zipWith (· - ·) pred L.y
  let g := huber_grad resid L.knot
  let coef_grad := (matT_vec L.X g).map (fun c => (1 / (L.X.length : ℚ)) * c)
  if L.fit_intercept then (g.sum / (g.length : ℚ)) :: coef_grad else coef_grad

/-- The state of a constructed `HuberRegMultiRespLoss`
(`huber_regression.py` lines 104-146). -/
structure HuberRegMultiRespLoss where
  X : List (List ℚ)
  y : List (List ℚ)
  knot : ℚ
  fit_intercept : Bool
  coef_shape : ℕ × ℕ
  grad_lip : ℚ

/-- Model of `HuberRegMultiRespLoss.__init__` (`huber_regression.py` lines
131-146): store the data, derive `coef_shape` from `X.shape[1]` and
`y.shape[1]`, set `_grad_lip` as in the single-response case.  Again no
shape validation of any kind. -/
def huberRegMultiRespLossInit (lipFn : List (List ℚ) → Bool → ℚ)
    (X : List (List ℚ)) (y : List (List ℚ)) (knot : ℚ)
    (fit_intercept : Bool) (lip : Option ℚ) :
    Except PyErr HuberRegMultiRespLoss :=
  Except.ok
    { X := X
      y := y
      knot := knot
      fit_intercept := fit_intercept
      coef_shape :=
        (if fit_intercept then (X.headD []).length + 1 else (X.headD []).length,
          (y.headD []).length)
      grad_lip :=
        match lip with
        | none => lipFn X fit_intercept
        | some l => l }

/-- Whether a modelled Python call returned normally. -/
def exceptIsOk {α : Type} : Except PyErr α → Bool
  | Except.ok _ => true
  | Except.error _ => false

/-- Model of `logsig` (`logistic_regression.py` lines 7-20): the four-region
piecewise formula for `log(sigmoid(x))`.  The source fills the regions
through boolean masks `x < -33`, `-33 <= x < -18`, `-18 <= x < 37`,
`x >= 37`, which partition the line, so nested conditionals are
equivalent.  `exp` and `log1p` are the transcendental kernels
(`np.exp`, `np.log1p`), taken as parameters. -/
def logsig (exp log1p : ℚ → ℚ) (x : ℚ) : ℚ :=
  if x < -33 then x
  else if x < -18 then x - exp x
  else if x < 37 then -(log1p (exp (-x)))
  else -(exp (-x))

end Yaglm

namespace Yaglm

theorem sumGradLipLoop_all_known (fs : List Func) :
    ∀ acc : ℚ, (∀ f ∈ fs, f.grad_lip ≠ none) →
      sumGradLipLoop acc fs = some (acc + (fs.map (fun f => f.grad_lip.getD 0)).sum) := by
  induction fs with
  | nil => intro acc _; simp [sumGradLipLoop]
  | cons f fs ih =>
    intro acc h
    have hf : f.grad_lip ≠ none := h f (List.mem_cons_self f fs)
    obtain ⟨l, hl⟩ := Option.ne_none_iff_exists'.mp hf
    have ht : ∀ g ∈ fs, g.grad_lip ≠ none := fun g hg => h g (List.mem_cons_of_mem f hg)
    simp only [sumGradLipLoop, hl, ih (acc + l) ht, List.map_cons, List.sum_cons,
      Option.getD_some]
    ring_nf

theorem sumGradLipLoop_some_none (fs : List Func) :
    ∀ acc : ℚ, (∃ f ∈ fs, f.grad_lip = none) → sumGradLipLoop acc fs = none := by
  induction fs with
  | nil => intro acc h; simp at h
  | cons f fs ih =>
    intro acc h
    rcases h with ⟨g, hg, hnone⟩
    rcases List.mem_cons.mp hg with heq | hmem
    · subst heq; simp [sumGradLipLoop, hnone]
    · cases hf : f.grad_lip with
      | none => simp [sumGradLipLoop, hf]
      | some l => simp [sumGradLipLoop, hf, ih (acc + l) ⟨g, hmem, hnone⟩]

/-- C3: `Sum.grad_lip` is the sum of the components' `grad_lip` values
when every component reports a known value, and is `None` whenever at
least one component reports `None` — never zero or a partial sum. -/
theorem sum_grad_lip_spec (funcs : List Func) :
    ((∀ f ∈ funcs, f.grad_lip ≠ none) →
      (mkSum funcs).grad_lip = some ((funcs.map (fun f => f.grad_lip.getD 0)).sum)) ∧
    ((∃ f ∈ funcs, f.grad_lip = none) → (mkSum funcs).grad_lip = none) := by
  constructor
  · intro h
    have := sumGradLipLoop_all_known funcs 0 h
    simpa [mkSum] using this
  · intro h
    have := sumGradLipLoop_some_none funcs 0 h
    simpa [mkSum] using this

/-- Witness for C3 at concrete component lists: two components with
known constants `0` sum to `0`; one unknown component makes the sum
unknown. -/
theorem sum_grad_lip_spec_witness :
    (mkSum [ZeroF, ZeroF]).grad_lip =
      some (([ZeroF, ZeroF].map (fun f => f.grad_lip.getD 0)).sum) ∧
    (mkSum [ZeroF, noLipF]).grad_lip = none := by
  constructor
  · exact (sum_grad_lip_spec [ZeroF, ZeroF]).1 (by
      intro f hf
      rcases List.mem_cons.mp hf with h | hf2
      · subst h; simp [ZeroF]
      · rcases List.mem_cons.mp hf2 with h | h
        · subst h; simp [ZeroF]
        · simp at h)
  · exact (sum_grad_lip_spec [ZeroF, noLipF]).2
      ⟨noLipF, by simp, rfl⟩

/-- C10: the `Sum` of an empty collection evaluates to `0`, its
gradient is the Python scalar `0` (not an array of `x`'s shape), its
`grad_lip` is the known constant `0`, it reports itself smooth, and it
reports itself not proximable. -/
theorem empty_sum_spec (x : NDArray) :
    (mkSum []).eval x = 0 ∧
    (mkSum []).grad x = PyVal.scalar 0 ∧
    (∀ a : NDArray, (mkSum []).grad x ≠ PyVal.arr a) ∧
    (mkSum []).grad_lip = some 0 ∧
    (mkSum []).is_smooth = true ∧
    (mkSum []).is_proximable = false := by
  refine ⟨rfl, rfl, ?_, rfl, rfl, rfl⟩
  intro a h
  simp [mkSum, pySum] at h

/-- C1: for every function `f`, input `x` and step `s > 0`, whenever
`f.prox (x / s) (1 / s)` succeeds with value `p`, `conj_prox` returns
exactly `x - s * p` — Moreau's identity, computed generically from
`prox` (the single definition `Func.conj_prox`, overridden by no
subtype). -/
theorem conj_prox_moreau (f : Func) (x : NDArray) (s : ℚ) (p : NDArray)
    (hs : 0 < s) (hp : f.prox (x.scale (1 / s)) (1 / s) = Except.ok p) :
    f.conj_prox x s = Except.ok (x.sub (p.scale s)) := by
  simp only [Func.conj_prox]
  rw [hp]
  rfl

/-- Witness for C1: for `Zero` at `x = [3, 4]` and step `s = 2`,
`prox(x/2, 1/2) = x/2` and `conj_prox(x, 2) = x - 2*(x/2) = [0, 0]`. -/
theorem conj_prox_moreau_witness :
    (0 : ℚ) < 2 ∧
    ZeroF.prox ((NDArray.mk [2] [3, 4]).scale (1 / 2)) (1 / 2) =
      Except.ok ((NDArray.mk [2] [3, 4]).scale (1 / 2)) ∧
    ZeroF.conj_prox (NDArray.mk [2] [3, 4]) 2 =
      Except.ok ((NDArray.mk [2] [3, 4]).sub
        (((NDArray.mk [2] [3, 4]).scale (1 / 2)).scale 2)) := by
  refine ⟨by norm_num, rfl, ?_⟩
  exact conj_prox_moreau ZeroF (NDArray.mk [2] [3, 4]) 2
    ((NDArray.mk [2] [3, 4]).scale (1 / 2)) (by norm_num) rfl

/-- C9: the entrywise wrapper's `grad` and `prox` flatten the input,
apply the scalar rule entrywise, and return a result with exactly the
original input's shape (and entry count), for inputs of any rank —
the shape `x.shape` is an arbitrary list of dimensions, so 1-D, 2-D
and higher-rank inputs are covered identically. -/
theorem entrywise_shape_preservation (f : EntrywiseFunc) (x : NDArray) (step : ℚ) :
    (f.grad x).shape = x.shape ∧
    (f.grad x).data = x.data.map f.grad1 ∧
    (f.grad x).data.length = x.data.length ∧
    (f.prox x step).shape = x.shape ∧
    (f.prox x step).data = x.data.map (fun t => f.prox1 t step) ∧
    (f.prox x step).data.length = x.data.length := by
  refine ⟨rfl, rfl, ?_, rfl, rfl, ?_⟩ <;>
    simp [EntrywiseFunc.grad, EntrywiseFunc.prox, reshape, NDArray.flatten]

/-- C2 (the code is broken here): `check_prox_impl` is meant to
compare the analytic prox with a numerically minimized baseline, but
with the default `force_no_grad=False` the very first trial point
raises `AttributeError`, because `numeric_prox` consults
`func.capabilities` (`base.py` line 266) while `Func.capabilities` is
commented out (`base.py` lines 77-99).  Evaluated here on `Zero` at
the single trial point `[5.0]` with `step = 1/2`: the check errors
before any comparison, whatever the external optimizer and square
root do. -/
theorem check_prox_impl_attribute_error (minimize : Minimizer) (sqrt : ℚ → ℚ) :
    check_prox_impl minimize sqrt ZeroF [NDArray.mk [1] [5]]
      (1 / 2) (1 / 100000) (1 / 100000) Behavior.ret =
      Except.error PyErr.attributeError := rfl

/-- C4 counterexample: constructing `HuberRegLoss` with a design
matrix of 2 rows and a response of 3 entries — mismatched row counts —
returns normally; no shape-mismatch error is raised at construction
time. -/
theorem huber_init_shape_mismatch_counterexample :
    ([[(1 : ℚ)], [2]] : List (List ℚ)).length ≠ ([3, 4, 5] : List ℚ).length ∧
    exceptIsOk (huberRegLossInit (fun _ _ => 1) [[1], [2]] [3, 4, 5]
      (27 / 20) true none) = true := by
  exact ⟨by decide, rfl⟩

/-- C4 amended: `HuberRegLoss.__init__` and
`HuberRegMultiRespLoss.__init__` never raise, whatever the shapes of
`X` and `y`: they store the data and set `_grad_lip` without any
shape validation, so an `X`/`y` row-count mismatch is not detected at
construction time. -/
theorem huber_init_never_raises (lipFn : List (List ℚ) → Bool → ℚ)
    (X : List (List ℚ)) (y : List ℚ) (ym : List (List ℚ)) (knot : ℚ)
    (fit_intercept : Bool) (lip : Option ℚ) :
    exceptIsOk (huberRegLossInit lipFn X y knot fit_intercept lip) = true ∧
    exceptIsOk (huberRegMultiRespLossInit lipFn X ym knot fit_intercept lip)
      = true :=
  ⟨rfl, rfl⟩

/-- C5: for every `z` and every knot `k ≥ 0`, the Huber eval kernel is
`0.5 z²` on `|z| ≤ k` and `k (|z| - 0.5 k)` beyond, the gradient
kernel is `z` on `|z| ≤ k` and `k · sign z` beyond, and at the knot
`|z| = k` the two eval branches and the two gradient branches agree
with the kernels' values (C¹ continuity at the knot). -/
theorem huber_kernel_spec (z k : ℚ) (hk : 0 ≤ k) :
    (|z| ≤ k → huber_eval_1d z k = (1 / 2) * z ^ 2 ∧ huber_grad_1d z k = z) ∧
    (k < |z| → huber_eval_1d z k = k * (|z| - (1 / 2) * k) ∧
      huber_grad_1d z k = k * npSign z) ∧
    (|z| = k →
      huber_eval_1d z k = (1 / 2) * z ^ 2 ∧
      huber_eval_1d z k = k * (|z| - (1 / 2) * k) ∧
      huber_grad_1d z k = z ∧
      huber_grad_1d z k = k * npSign z) := by
  refine ⟨?_, ?_, ?_⟩
  · intro h
    exact ⟨by simp [huber_eval_1d, h], by simp [huber_grad_1d, h]⟩
  · intro h
    have h' : ¬ |z| ≤ k := not_le.mpr h
    exact ⟨by simp [huber_eval_1d, h'], by simp [huber_grad_1d, h']⟩
  · intro he
    have hle : |z| ≤ k := le_of_eq he
    have hz : z = k ∨ z = -k := (abs_eq hk).mp he
    have hsq : z ^ 2 = k ^ 2 := by
      rcases hz with hz | hz <;> rw [hz] <;> ring
    have hgs : z = k * npSign z := by
      rcases hk.lt_or_eq with hk' | hk'
      · rcases hz with hz | hz
        · subst hz
          simp only [npSign, if_pos hk', mul_one]
        · subst hz
          simp only [npSign]
          rw [if_neg (by linarith), if_pos (by linarith)]
          ring
      · have hzero : z = 0 := by
          rcases hz with hz | hz <;> rw [hz, ← hk'] <;> ring
        simp [npSign, hzero, ← hk']
    refine ⟨by simp [huber_eval_1d, hle], ?_, by simp [huber_grad_1d, hle], ?_⟩
    · rw [huber_eval_1d, if_pos hle, he, hsq]; ring
    · rw [huber_grad_1d, if_pos hle]; exact hgs

/-- Witness for C5 at the knot `z = 2`, `k = 2`: both eval branches
and both gradient branches return the kernels' values. -/
theorem huber_kernel_spec_witness :
    (0 : ℚ) ≤ 2 ∧
    huber_eval_1d 2 2 = (1 / 2) * (2 : ℚ) ^ 2 ∧
    huber_eval_1d 2 2 = 2 * (|(2 : ℚ)| - (1 / 2) * 2) ∧
    huber_grad_1d 2 2 = 2 ∧
    huber_grad_1d 2 2 = 2 * npSign 2 := by
  have h := (huber_kernel_spec 2 2 (by norm_num)).2.2 (by norm_num)
  exact ⟨by norm_num, h.1, h.2.1, h.2.2.1, h.2.2.2⟩

/-- C6: `logsig` follows the four-region piecewise formula with
thresholds `-33`, `-18`, `37`: `x` below `-33`; `x - exp x` on
`[-33, -18)`; `-log1p(exp(-x))` on `[-18, 37)`; `-exp(-x)` from `37`
on — for any transcendental kernels `exp`, `log1p`. -/
theorem logsig_regions (exp log1p : ℚ → ℚ) (x : ℚ) :
    (x < -33 → logsig exp log1p x = x) ∧
    (-33 ≤ x → x < -18 → logsig exp log1p x = x - exp x) ∧
    (-18 ≤ x → x < 37 → logsig exp log1p x = -(log1p (exp (-x)))) ∧
    (37 ≤ x → logsig exp log1p x = -(exp (-x))) := by
  refine ⟨?_, ?_, ?_, ?_⟩
  · intro h
    rw [logsig, if_pos h]
  · intro h1 h2
    rw [logsig, if_neg (by linarith), if_pos h2]
  · intro h1 h2
    rw [logsig, if_neg (by linarith), if_neg (by linarith), if_pos h2]
  · intro h
    rw [logsig, if_neg (by linarith), if_neg (by linarith),
      if_neg (by linarith)]

/-- Witness for C6, one point per region, with concrete stand-in
kernels `exp q = q + 1` and `log1p q = 2 * q`. -/
theorem logsig_regions_witness :
    logsig (fun q => q + 1) (fun q => 2 * q) (-40) = -40 ∧
    logsig (fun q => q + 1) (fun q => 2 * q) (-20) = -20 - ((-20 : ℚ) + 1) ∧
    logsig (fun q => q + 1) (fun q => 2 * q) 0 = -(2 * (-(0 : ℚ) + 1)) ∧
    logsig (fun q => q + 1) (fun q => 2 * q) 40 = -(-(40 : ℚ) + 1) := by
  refine ⟨?_, ?_, ?_, ?_⟩
  · exact (logsig_regions _ _ (-40)).1 (by norm_num)
  · exact (logsig_regions _ _ (-20)).2.1 (by norm_num) (by norm_num)
  · exact (logsig_regions _ _ 0).2.2.1 (by norm_num) (by norm_num)
  · exact (logsig_regions _ _ 40).2.2.2 (by norm_num)

theorem dotList_replicate_zero (r : List ℚ) (m : ℕ) :
    dotList r (List.replicate m 0) = 0 := by
  induction r generalizing m with
  | nil => simp [dotList]
  | cons a as ih =>
    cases m with
    | zero => simp [dotList]
    | succ m =>
      simp only [List.replicate_succ, dotList, List.zipWith_cons_cons,
        List.sum_cons, mul_zero, zero_add]
      simpa [dotList] using ih m

theorem zipWith_sub_replicate_zero (y : List ℚ) :
    ∀ n : ℕ, y.length = n →
      List.zipWith (· - ·) (List.replicate n (0 : ℚ)) y = y.map (fun t => -t) := by
  induction y with
  | nil =>
    intro n h
    rw [← h]
    simp
  | cons a as ih =>
    intro n h
    rw [← h]
    simp [List.replicate_succ, ih as.length rfl]

theorem huber_eval_1d_neg (z k : ℚ) : huber_eval_1d (-z) k = huber_eval_1d z k := by
  simp [huber_eval_1d, abs_neg, neg_sq]

theorem npSign_neg (z : ℚ) : npSign (-z) = -npSign z := by
  simp only [npSign]
  split_ifs <;> first | linarith | norm_num

theorem huber_grad_1d_neg (z k : ℚ) :
    huber_grad_1d (-z) k = -(huber_grad_1d z k) := by
  simp only [huber_grad_1d, abs_neg]
  split_ifs with h
  · rfl
  · rw [npSign_neg]
    ring

theorem sum_map_neg (l : List ℚ) (f : ℚ → ℚ) :
    (l.map (fun t => -(f t))).sum = -((l.map f).sum) := by
  induction l with
  | nil => simp
  | cons a as ih =>
    simp only [List.map_cons, List.sum_cons, ih]
    ring

/-- C7: for a `HuberRegLoss` over `X : n × p` with `fit_intercept`,
`grad x` is `mean g` prepended to `(1/n) * X.T @ g` (with `g` the Huber
gradient kernel of the residual), hence has length `p + 1` with the
intercept gradient first; at `x = 0` the residual is `-y`, so `eval`
equals `(1/n) * Σ huber(yᵢ)` (the kernel is even) and the first
gradient entry equals `-mean(huber_grad(yᵢ))` — the sign coming from
the residual convention `pred - y`. -/
theorem huberRegLoss_grad_layout_and_at_zero (L : HuberRegLoss) (n p : ℕ)
    (hn : 0 < n) (hX : L.X.length = n) (hrows : ∀ r ∈ L.X, r.length = p)
    (hy : L.y.length = n) (hfi : L.fit_intercept = true) :
    (∀ x : List ℚ,
      L.grad x =
        ((huber_grad (List.zipWith (· - ·)
            (safe_data_mat_coef_dot L.X x true) L.y) L.knot).sum / (n : ℚ)) ::
          (matT_vec L.X (huber_grad (List.zipWith (· - ·)
            (safe_data_mat_coef_dot L.X x true) L.y) L.knot)).map
            (fun c => (1 / (n : ℚ)) * c) ∧
      (L.grad x).length = p + 1) ∧
    L.eval (List.replicate (p + 1) 0) =
      (1 / (n : ℚ)) * (L.y.map (fun t => huber_eval_1d t L.knot)).sum ∧
    (L.grad (List.replicate (p + 1) 0)).headD 0 =
      -((L.y.map (fun t => huber_grad_1d t L.knot)).sum / (n : ℚ)) := by
  have hXne : L.X ≠ [] := by
    intro h
    rw [h] at hX
    simp at hX
    omega
  obtain ⟨r, rest, hXX⟩ : ∃ r rest, L.X = r :: rest := by
    cases hc : L.X with
    | nil => exact absurd hc hXne
    | cons a b => exact ⟨a, b, rfl⟩
  have hhead : (L.X.headD []).length = p := by
    rw [hXX]
    exact hrows r (hXX ▸ List.mem_cons_self r rest)
  have hglen : ∀ x : List ℚ,
      (huber_grad (List.zipWith (· - ·)
        (safe_data_mat_coef_dot L.X x true) L.y) L.knot).length = n := by
    intro x
    simp [huber_grad, List.length_zipWith, safe_data_mat_coef_dot, hX, hy]
  have hgrad : ∀ x : List ℚ,
      L.grad x =
        ((huber_grad (List.zipWith (· - ·)
            (safe_data_mat_coef_dot L.X x true) L.y) L.knot).sum / (n : ℚ)) ::
          (matT_vec L.X (huber_grad (List.zipWith (· - ·)
            (safe_data_mat_coef_dot L.X x true) L.y) L.knot)).map
            (fun c => (1 / (n : ℚ)) * c) := by
    intro x
    simp only [HuberRegLoss.grad, hfi, if_true]
    rw [hglen x, hX]
  have hpred0 :
      safe_data_mat_coef_dot L.X (List.replicate (p + 1) 0) true =
        List.replicate n 0 := by
    simp [safe_data_mat_coef_dot, List.replicate_succ, dotList_replicate_zero, hX]
  have hresid0 :
      List.zipWith (· - ·) (List.replicate n (0 : ℚ)) L.y =
        L.y.map (fun t => -t) :=
    zipWith_sub_replicate_zero L.y n hy
  refine ⟨?_, ?_, ?_⟩
  · intro x
    refine ⟨hgrad x, ?_⟩
    rw [hgrad x, hXX]
    simp [matT_vec, hrows r (hXX ▸ List.mem_cons_self r rest)]
  · simp only [HuberRegLoss.eval, hfi]
    rw [hpred0, hresid0]
    simp only [huber_eval, vec_huber_eval, List.map_map]
    rw [show ((fun z => huber_eval_1d z L.knot) ∘ fun t : ℚ => -t) =
        fun z => huber_eval_1d z L.knot from
      funext fun t => huber_eval_1d_neg t L.knot, hX]
  · rw [hgrad (List.replicate (p + 1) 0)]
    simp only [List.headD_cons]
    rw [hpred0, hresid0]
    simp only [huber_grad, List.map_map]
    rw [show ((fun z => huber_grad_1d z L.knot) ∘ fun t : ℚ => -t) =
        fun t => -(huber_grad_1d t L.knot) from
      funext fun t => huber_grad_1d_neg t L.knot]
    rw [sum_map_neg L.y (fun t => huber_grad_1d t L.knot), neg_div]

/-- Witness for C7 on `X = I₂`, `y = [1, 2]`, `knot = 1`,
`fit_intercept = true` (`n = p = 2`): the value of `eval` and the
first gradient entry at the zero vector. -/
theorem huberRegLoss_grad_layout_witness :
    (HuberRegLoss.mk [[1, 0], [0, 1]] [1, 2] 1 true 0).eval
        (List.replicate 3 0) =
      (1 / (2 : ℚ)) * (([1, 2] : List ℚ).map (fun t => huber_eval_1d t 1)).sum ∧
    ((HuberRegLoss.mk [[1, 0], [0, 1]] [1, 2] 1 true 0).grad
        (List.replicate 3 0)).headD 0 =
      -((([1, 2] : List ℚ).map (fun t => huber_grad_1d t 1)).sum / (2 : ℚ)) := by
  have h := huberRegLoss_grad_layout_and_at_zero
    (HuberRegLoss.mk [[1, 0], [0, 1]] [1, 2] 1 true 0) 2 2
    (by norm_num) rfl
    (by
      intro r hr
      fin_cases hr <;> rfl)
    rfl rfl
  exact ⟨h.2.1, h.2.2⟩

/-- C8: for every input `x` of any shape and every step, `Zero.eval x = 0`,
`Zero.grad x` is the all-zero array with the shape of `x`, `Zero.prox x step = x`,
`Zero.grad_lip = 0`, and `Zero` reports itself smooth and proximable. -/
theorem zero_func_spec (x : NDArray) (step : ℚ) :
    ZeroF.eval x = 0 ∧
    ZeroF.grad x = PyVal.arr ⟨x.shape, List.replicate x.data.length 0⟩ ∧
    ZeroF.prox x step = Except.ok x ∧
    ZeroF.grad_lip = some 0 ∧
    ZeroF.is_smooth = true ∧
    ZeroF.is_proximable = true := by
  refine ⟨rfl, ?_, rfl, rfl, rfl, rfl⟩
  simp [ZeroF, NDArray.zerosLike, List.map_const']

end Yaglm
